import Mathlib

/-!
Verification development for the Portfolio Tracker local-data-protection core:
the master-password / session / field-encryption subsystem implemented in
src/utils/crypto.py (SecurityManager) and src/core/database.py
(DatabaseManager.encrypt_field / decrypt_field / backup_database).

Modelling conventions:
* Byte strings are lists of naturals; Python str/bytes conversion is modelled
  at the code-point level (injective, partially invertible), abstracting UTF-8.
* The external cryptography.fernet primitive is modelled as an idealized
  authenticated-encryption scheme: a token records the per-call nonce, the
  payload and an authentication tag computed by an idealized injective MAC.
* datetime.now() is passed explicitly: every operation takes one time argument
  per observation of the clock in the Python source.  Times are naturals in
  minutes, so timedelta(minutes = m) adds m.
* Randomness (os.urandom salts, bcrypt.gensalt, Fernet IVs) is passed
  explicitly as arguments.
* The JSON library is modelled for the subset the application exercises:
  null, booleans, integers, strings, arrays, objects (no floats/NaN/Infinity).
-/

namespace PortfolioTracker

/-- Byte strings, modelled as lists of naturals (conceptually each < 256). -/
abbrev Bytes := List Nat

/-- Injective encoding of a byte list into one natural number; used to build
the idealized MAC and digests for the external crypto primitives. -/
def listEncode : Bytes → Nat
  | [] => 0
  | b :: bs => Nat.pair b (listEncode bs) + 1

/-- Flip bit i of a natural number (used to state tamper detection). -/
def flipBit (x i : Nat) : Nat := x ^^^ (2 ^ i)

/-! ### Python str / bytes / hex conversions -/

/-- Models Python str.encode(): the string as its list of character code
points.  UTF-8 byte-level detail is abstracted; the map is injective and
bytesToStr is its partial inverse. -/
def strBytes (s : String) : Bytes := s.data.map Char.toNat

/-- Validity of a code point, matching the side condition of Char. -/
def validCodePoint (n : Nat) : Bool :=
  decide (n < 0xd800) || (decide (0xdfff < n) && decide (n < 0x110000))

/-- Models Python bytes.decode(): succeeds iff every entry is a valid code
point (the model of a UnicodeDecodeError is returning none). -/
def bytesToStr (bs : Bytes) : Option String :=
  if bs.all validCodePoint then some ⟨bs.map Char.ofNat⟩ else none

/-- Value of a single hexadecimal digit character, as in bytes.fromhex. -/
def hexDigitVal (c : Char) : Option Nat :=
  if 48 ≤ c.toNat ∧ c.toNat ≤ 57 then some (c.toNat - 48)
  else if 97 ≤ c.toNat ∧ c.toNat ≤ 102 then some (c.toNat - 87)
  else if 65 ≤ c.toNat ∧ c.toNat ≤ 70 then some (c.toNat - 55)
  else none

/-- Consume hex-digit pairs; none on an odd count or a non-hex character. -/
def hexPairs : List Char → Option Bytes
  | [] => some []
  | [_] => none
  | c1 :: c2 :: rest =>
    match hexDigitVal c1, hexDigitVal c2, hexPairs rest with
    | some h, some l, some bs => some ((16 * h + l) :: bs)
    | _, _, _ => none

/-- Models Python bytes.fromhex in its strict form: an even number of hex
digits, no embedded whitespace. -/
def bytesFromHex (s : String) : Option Bytes := hexPairs s.data

/-- One lowercase hex digit. -/
def hexDigitChar (n : Nat) : Char :=
  if n < 10 then Char.ofNat (48 + n) else Char.ofNat (87 + n)

/-- Models Python bytes.hex(): two lowercase digits per byte. -/
def bytesToHex (bs : Bytes) : String :=
  ⟨(bs.map (fun b => [hexDigitChar ((b % 256) / 16), hexDigitChar (b % 16)])).flatten⟩

/-! ### The JSON model (Python json.dumps / json.loads) -/

/-- JSON values as Python json handles them, restricted to the subset this
application exercises (integers rather than arbitrary numbers).  null also
stands for the Python value None at the database adapter boundary. -/
inductive JValue where
  | null
  | bool (b : Bool)
  | num (n : Int)
  | str (s : String)
  | arr (elems : List JValue)
  | obj (members : List (String × JValue))

/-- Opening brace character (written via its code point). -/
def lbrace : Char := Char.ofNat 123

/-- Closing brace character (written via its code point). -/
def rbrace : Char := Char.ofNat 125

/-- Escaping of one character inside a JSON string, modelling json.dumps for
strings without control or non-ASCII characters (ensure_ascii escaping of
exotic characters is outside the model; no claim exercises it). -/
def escapeChar (c : Char) : String :=
  if c = '"' then "\\\""
  else if c = '\\' then "\\\\"
  else String.singleton c

/-- Escape a whole string body. -/
def escapeString (s : String) : String := String.join (s.data.map escapeChar)

mutual

/-- Models Python json.dumps with its default separators: items joined by
a comma and a space, keys followed by a colon and a space. -/
def jsonDumps : JValue → String
  | .null => "null"
  | .bool true => "true"
  | .bool false => "false"
  | .num n => toString n
  | .str s => "\"" ++ escapeString s ++ "\""
  | .arr es => "[" ++ dumpsElems es ++ "]"
  | .obj ms => "\x7b" ++ dumpsMembers ms ++ "\x7d"

/-- Comma-and-space separated rendering of array elements. -/
def dumpsElems : List JValue → String
  | [] => ""
  | [v] => jsonDumps v
  | v :: vs => jsonDumps v ++ ", " ++ dumpsElems vs

/-- Comma-and-space separated rendering of object members. -/
def dumpsMembers : List (String × JValue) → String
  | [] => ""
  | [(k, v)] => "\"" ++ escapeString k ++ "\": " ++ jsonDumps v
  | (k, v) :: ms => "\"" ++ escapeString k ++ "\": " ++ jsonDumps v ++ ", " ++ dumpsMembers ms

end

/-- JSON insignificant whitespace. -/
def isJsonWs (c : Char) : Bool := c = ' ' || c = '\t' || c = '\n' || c = '\r'

/-- Skip leading whitespace. -/
def skipWs : List Char → List Char
  | [] => []
  | c :: cs => if isJsonWs c then skipWs cs else c :: cs

/-- ASCII decimal digit test (the lexical grammar of JSON numbers). -/
def isDigitChar (c : Char) : Bool := 48 ≤ c.toNat && c.toNat ≤ 57

/-- Split off a maximal run of decimal digits. -/
def takeDigits : List Char → List Char × List Char
  | [] => ([], [])
  | c :: cs =>
    if isDigitChar c then
      let (ds, rest) := takeDigits cs
      (c :: ds, rest)
    else ([], c :: cs)

/-- Numeric value of a digit run. -/
def digitsToNat (ds : List Char) : Nat :=
  ds.foldl (fun acc c => 10 * acc + (c.toNat - 48)) 0

/-- JSON integer grammar: a single zero, or a nonzero leading digit. -/
def leadingDigitOk : List Char → Bool
  | [] => false
  | [_] => true
  | c :: _ => c ≠ '0'

/-- Parse a JSON integer token (floats and exponents are outside the
modelled subset; no claim exercises them). -/
def parseIntToken : List Char → Option (Int × List Char)
  | [] => none
  | c :: cs =>
    if c = '-' then
      match takeDigits cs with
      | ([], _) => none
      | (ds, rest) =>
        if leadingDigitOk ds then some (-(digitsToNat ds : Int), rest) else none
    else
      match takeDigits (c :: cs) with
      | ([], _) => none
      | (ds, rest) =>
        if leadingDigitOk ds then some ((digitsToNat ds : Int), rest) else none

/-- Parse four hex digits of a unicode escape. -/
def parseHex4 : List Char → Option (Nat × List Char)
  | a :: b :: c :: d :: rest =>
    match hexDigitVal a, hexDigitVal b, hexDigitVal c, hexDigitVal d with
    | some x1, some x2, some x3, some x4 =>
      some (((x1 * 16 + x2) * 16 + x3) * 16 + x4, rest)
    | _, _, _, _ => none
  | _ => none

/-- Parse the remainder of a JSON string literal after the opening quote,
returning the content and what follows the closing quote. -/
def parseStringRest : Nat → List Char → Option (List Char × List Char)
  | 0, _ => none
  | _ + 1, [] => none
  | fuel + 1, c :: cs =>
    if c = '"' then some ([], cs)
    else if c = '\\' then
      match cs with
      | [] => none
      | e :: cs2 =>
        if e = '"' then
          match parseStringRest fuel cs2 with
          | some (content, rem) => some ('"' :: content, rem)
          | none => none
        else if e = '\\' then
          match parseStringRest fuel cs2 with
          | some (content, rem) => some ('\\' :: content, rem)
          | none => none
        else if e = '/' then
          match parseStringRest fuel cs2 with
          | some (content, rem) => some ('/' :: content, rem)
          | none => none
        else if e = 'b' then
          match parseStringRest fuel cs2 with
          | some (content, rem) => some (Char.ofNat 8 :: content, rem)
          | none => none
        else if e = 'f' then
          match parseStringRest fuel cs2 with
          | some (content, rem) => some (Char.ofNat 12 :: content, rem)
          | none => none
        else if e = 'n' then
          match parseStringRest fuel cs2 with
          | some (content, rem) => some ('\n' :: content, rem)
          | none => none
        else if e = 'r' then
          match parseStringRest fuel cs2 with
          | some (content, rem) => some ('\r' :: content, rem)
          | none => none
        else if e = 't' then
          match parseStringRest fuel cs2 with
          | some (content, rem) => some ('\t' :: content, rem)
          | none => none
        else if e = 'u' then
          match parseHex4 cs2 with
          | some (n, rest) =>
            match parseStringRest fuel rest with
            | some (content, rem) => some (Char.ofNat n :: content, rem)
            | none => none
          | none => none
        else none
    else
      match parseStringRest fuel cs with
      | some (content, rem) => some (c :: content, rem)
      | none => none

/-- Match a literal keyword (null, true, false). -/
def stripLit : List Char → List Char → Option (List Char)
  | [], rest => some rest
  | _ :: _, [] => none
  | l :: ls, c :: cs => if c = l then stripLit ls cs else none

mutual

/-- Recursive-descent JSON value reader (the core of the json.loads model),
with explicit fuel for termination; jsonLoads supplies ample fuel. -/
def parseValue : Nat → List Char → Option (JValue × List Char)
  | 0, _ => none
  | fuel + 1, s =>
    match skipWs s with
    | [] => none
    | c :: cs =>
      if c = '"' then
        match parseStringRest (cs.length + 1) cs with
        | some (content, rest) => some (.str ⟨content⟩, rest)
        | none => none
      else if c = lbrace then
        match skipWs cs with
        | d :: ds =>
          if d = rbrace then some (.obj [], ds)
          else
            match parseMembers fuel (d :: ds) with
            | some (ms, rest) => some (.obj ms, rest)
            | none => none
        | [] => none
      else if c = '[' then
        match skipWs cs with
        | d :: ds =>
          if d = ']' then some (.arr [], ds)
          else
            match parseElems fuel (d :: ds) with
            | some (vs, rest) => some (.arr vs, rest)
            | none => none
        | [] => none
      else if c = 'n' then
        match stripLit ['u', 'l', 'l'] cs with
        | some rest => some (.null, rest)
        | none => none
      else if c = 't' then
        match stripLit ['r', 'u', 'e'] cs with
        | some rest => some (.bool true, rest)
        | none => none
      else if c = 'f' then
        match stripLit ['a', 'l', 's', 'e'] cs with
        | some rest => some (.bool false, rest)
        | none => none
      else
        match parseIntToken (c :: cs) with
        | some (n, rest) => some (.num n, rest)
        | none => none

/-- One or more comma-separated array elements, up to the closing bracket. -/
def parseElems : Nat → List Char → Option (List JValue × List Char)
  | 0, _ => none
  | fuel + 1, s =>
    match parseValue fuel s with
    | some (v, rest) =>
      match skipWs rest with
      | c :: cs =>
        if c = ',' then
          match parseElems fuel cs with
          | some (vs, rem) => some (v :: vs, rem)
          | none => none
        else if c = ']' then some ([v], cs)
        else none
      | [] => none
    | none => none

/-- One or more comma-separated object members, up to the closing brace. -/
def parseMembers : Nat → List Char → Option (List (String × JValue) × List Char)
  | 0, _ => none
  | fuel + 1, s =>
    match skipWs s with
    | c :: cs =>
      if c = '"' then
        match parseStringRest (cs.length + 1) cs with
        | some (kcontent, rest) =>
          match skipWs rest with
          | d :: ds =>
            if d = ':' then
              match parseValue fuel ds with
              | some (v, rest2) =>
                match skipWs rest2 with
                | e :: es =>
                  if e = ',' then
                    match parseMembers fuel es with
                    | some (ms, rem) => some ((⟨kcontent⟩, v) :: ms, rem)
                    | none => none
                  else if e = rbrace then some ([(⟨kcontent⟩, v)], es)
                  else none
                | [] => none
              | none => none
            else none
          | [] => none
        | none => none
      else none
    | [] => none

end

/-- Models Python json.loads for the subset described above: parse one value
and require that only whitespace remains.  Total: returning none models the
json.JSONDecodeError path. -/
def jsonLoads (s : String) : Option JValue :=
  match parseValue (s.length + 1) s.data with
  | some (v, rest) => if skipWs rest = [] then some v else none
  | none => none

/-! ### Model of the external cryptography.fernet primitive

Fernet is an authenticated-encryption scheme: every token carries an IV /
timestamp chosen at encryption time and an HMAC over the whole token, and
decryption verifies the HMAC before returning the payload.  The model keeps
the token structured: the nonce stands for the per-call random IV, the body
for the payload, and the tag for the HMAC, idealized as an injective
function of the key and the token contents. -/

/-- Fernet token: nonce (per-call randomness), payload, authentication tag. -/
structure FernetToken where
  nonce : Nat
  body : Bytes
  tag : Nat
deriving DecidableEq, Repr

/-- Idealized HMAC-SHA256: injective in the key, the nonce and the body. -/
def fernetMac (key : Bytes) (nonce : Nat) (body : Bytes) : Nat :=
  Nat.pair (listEncode key) (Nat.pair nonce (listEncode body))

/-- Model of Fernet.encrypt: records the payload under a fresh nonce with a
valid authentication tag. -/
def fernetEncrypt (key : Bytes) (nonce : Nat) (m : Bytes) : FernetToken :=
  ⟨nonce, m, fernetMac key nonce m⟩

/-- Model of Fernet.decrypt on a structured token: verifies the tag; none
models the InvalidToken exception. -/
def fernetDecrypt (key : Bytes) (t : FernetToken) : Option Bytes :=
  if t.tag = fernetMac key t.nonce t.body then some t.body else none

/-- Injective encoding of a token into one natural number. -/
def tokenEncode (t : FernetToken) : Nat :=
  Nat.pair t.nonce (Nat.pair (listEncode t.body) t.tag)

/-- Big-endian base-256 digits of a natural number. -/
def natToBytes : Nat → Bytes
  | 0 => []
  | n + 1 => natToBytes ((n + 1) / 256) ++ [(n + 1) % 256]
decreasing_by exact Nat.div_lt_self (Nat.succ_pos n) (by decide)

/-- Evaluate base-256 digits back to a natural number. -/
def bytesToNat (bs : Bytes) : Nat :=
  bs.foldl (fun acc b => acc * 256 + b % 256) 0

/-- Partial inverse of listEncode. -/
def listDecode : Nat → Option Bytes
  | 0 => some []
  | n + 1 =>
    match listDecode (Nat.unpair n).2 with
    | some bs => some ((Nat.unpair n).1 :: bs)
    | none => none
decreasing_by exact Nat.lt_succ_of_le (Nat.unpair_right_le n)

/-- Serialization of a token to wire bytes (Fernet tokens are byte strings
on the Python side; hex and file contents go through this form). -/
def tokenBytes (t : FernetToken) : Bytes := natToBytes (tokenEncode t)

/-- Parse wire bytes back into a token; none models InvalidToken raised on a
malformed token. -/
def tokenFromBytes (bs : Bytes) : Option FernetToken :=
  let n := bytesToNat bs
  match listDecode (Nat.unpair (Nat.unpair n).2).1 with
  | some body => some ⟨(Nat.unpair n).1, body, (Nat.unpair (Nat.unpair n).2).2⟩
  | none => none

/-- Fernet.decrypt as it acts on wire bytes. -/
def fernetDecryptBytes (key : Bytes) (bs : Bytes) : Option Bytes :=
  match tokenFromBytes bs with
  | some t => fernetDecrypt key t
  | none => none

/-! ### Models of bcrypt and PBKDF2 (external libraries) -/

/-- Model of bcrypt.hashpw: the generated salt is stored next to an
idealized injective digest of the password. -/
def hashpw (password : Bytes) (gensalt : Nat) : Nat :=
  Nat.pair gensalt (listEncode password)

/-- Model of bcrypt.checkpw: recompute the digest and compare. -/
def checkpw (password : Bytes) (hashed : Nat) : Bool :=
  (Nat.unpair hashed).2 = listEncode password

/-- Model of PBKDF2-HMAC-SHA256 with a 32-byte output: a deterministic
function of exactly the password, the salt and the iteration count. -/
def pbkdf2Sha256 (password salt : Bytes) (iterations : Nat) : Bytes :=
  [Nat.pair (listEncode password) (Nat.pair (listEncode salt) iterations)]

/-- Model of base64.urlsafe_b64encode: an injective re-encoding of the raw
key bytes, modelled as the identity since only injectivity is observable. -/
def urlsafe_b64encode (bs : Bytes) : Bytes := bs

/-! ### SecurityManager (src/utils/crypto.py) -/

/-- The security-relevant configuration defaults of AppConfig
(src/utils/config.py). -/
structure AppConfig where
  PASSWORD_MIN_LENGTH : Nat := 8
  PASSWORD_SALT_ROUNDS : Nat := 12
  SESSION_TIMEOUT_MINUTES : Nat := 30
  ENCRYPTION_KEY_ITERATIONS : Nat := 100000
deriving DecidableEq, Repr

/-- Contents of the on-disk .auth file: the base64 plumbing of the Python
dict is abstracted into the two fields the code reads back (created_at and
version are write-only metadata). -/
structure AuthData where
  password_hash : Nat
  salt : Bytes
deriving DecidableEq, Repr

/-- In-memory state of SecurityManager plus the .auth file it owns.  The
cipher field models the Fernet object, identified with the key it holds. -/
structure SecurityManager where
  config : AppConfig
  master_key : Option Bytes
  cipher : Option Bytes
  session_expiry : Option Nat
  auth_file : Option AuthData
deriving DecidableEq, Repr

/-- Errors of the security layer: notAuthenticated models
SecurityError("Not authenticated"), decryptionFailed the InvalidToken
raised by Fernet, ioFailure an OSError from file access. -/
inductive SecurityError where
  | notAuthenticated
  | decryptionFailed
  | ioFailure
deriving DecidableEq, Repr

/-- Model of SecurityManager.derive_key. -/
def SecurityManager.derive_key (self : SecurityManager) (password : String)
    (salt : Bytes) : Bytes :=
  urlsafe_b64encode
    (pbkdf2Sha256 (strBytes password) salt self.config.ENCRYPTION_KEY_ITERATIONS)

/-- Model of SecurityManager._validate_password_strength.  Python's
unicode-aware isdigit/isalpha/isalnum are modelled by the ASCII
classifications; every password in the spec and the tests is ASCII. -/
def SecurityManager.validate_password_strength (self : SecurityManager)
    (password : String) : Bool :=
  if password.length < self.config.PASSWORD_MIN_LENGTH then false
  else
    (password.data.any fun c => c.isDigit)
      && (password.data.any fun c => c.isAlpha)
      && (password.data.any fun c => !(c.isAlpha || c.isDigit))

/-- Model of SecurityManager.is_first_run: no .auth file exists. -/
def SecurityManager.is_first_run (self : SecurityManager) : Bool :=
  self.auth_file.isNone

/-- Model of SecurityManager.logout: clears the whole session state. -/
def SecurityManager.logout (self : SecurityManager) : SecurityManager :=
  { self with master_key := none, cipher := none, session_expiry := none }

/-- Model of SecurityManager.is_authenticated.  now is the observation of
datetime.now(); the pair returns the answer and the (possibly lazily
cleared) state. -/
def SecurityManager.is_authenticated (self : SecurityManager) (now : Nat) :
    Bool × SecurityManager :=
  match self.cipher, self.session_expiry with
  | none, _ => (false, self)
  | some _, none => (false, self)
  | some _, some expiry =>
    if now > expiry then (false, self.logout) else (true, self)

/-- Model of SecurityManager.initialize_master_password.  The os.urandom
salt and the bcrypt salt are explicit arguments; file writes always succeed
in the model, so the only failure is a weak password. -/
def SecurityManager.initialize_master_password (self : SecurityManager)
    (password : String) (salt : Bytes) (gensalt now : Nat) :
    Bool × SecurityManager :=
  if !(self.validate_password_strength password) then (false, self)
  else
    let password_hash := hashpw (strBytes password) gensalt
    let key := self.derive_key password salt
    (true, { self with
      auth_file := some ⟨password_hash, salt⟩,
      master_key := some key,
      cipher := some key,
      session_expiry := some (now + self.config.SESSION_TIMEOUT_MINUTES) })

/-- Model of SecurityManager.authenticate. -/
def SecurityManager.authenticate (self : SecurityManager) (password : String)
    (now : Nat) : Bool × SecurityManager :=
  match self.auth_file with
  | none => (false, self)
  | some ad =>
    if !(checkpw (strBytes password) ad.password_hash) then (false, self)
    else
      let key := self.derive_key password ad.salt
      (true, { self with
        master_key := some key,
        cipher := some key,
        session_expiry := some (now + self.config.SESSION_TIMEOUT_MINUTES) })

/-- Model of SecurityManager.extend_session (the two datetime.now()
observations of the source coincide in the model). -/
def SecurityManager.extend_session (self : SecurityManager) (now : Nat) :
    SecurityManager :=
  let p := self.is_authenticated now
  if p.1 then
    { p.2 with session_expiry := some (now + p.2.config.SESSION_TIMEOUT_MINUTES) }
  else p.2

/-- Model of SecurityManager.encrypt_data on bytes (the str overload encodes
to bytes first at the call site, mirroring data.encode()).  nonce is the IV
Fernet draws internally. -/
def SecurityManager.encrypt_data (self : SecurityManager) (now nonce : Nat)
    (data : Bytes) : Except SecurityError FernetToken × SecurityManager :=
  let p := self.is_authenticated now
  if p.1 then
    match p.2.cipher with
    | some key => (.ok (fernetEncrypt key nonce data), p.2)
    | none => (.error .notAuthenticated, p.2)  -- unreachable: true answer implies a cipher
  else (.error .notAuthenticated, p.2)

/-- Model of SecurityManager.decrypt_data. -/
def SecurityManager.decrypt_data (self : SecurityManager) (now : Nat)
    (t : FernetToken) : Except SecurityError Bytes × SecurityManager :=
  let p := self.is_authenticated now
  if p.1 then
    match p.2.cipher with
    | some key =>
      match fernetDecrypt key t with
      | some m => (.ok m, p.2)
      | none => (.error .decryptionFailed, p.2)
    | none => (.error .notAuthenticated, p.2)  -- unreachable: true answer implies a cipher
  else (.error .notAuthenticated, p.2)

/-! ### File operations (SecurityManager.encrypt_file and the backup step) -/

/-- A file system: a partial map from paths to byte contents. -/
def FileSystem := String → Option Bytes

/-- Write (create or overwrite) a file. -/
def FileSystem.write (fs : FileSystem) (p : String) (contents : Bytes) :
    FileSystem :=
  fun q => if q = p then some contents else fs q

/-- Delete a file (Path.unlink). -/
def FileSystem.unlink (fs : FileSystem) (p : String) : FileSystem :=
  fun q => if q = p then none else fs q

/-- Model of file_path.with_suffix(file_path.suffix + ".enc") for ordinary
file names: append the marker. -/
def encPath (p : String) : String := p ++ ".enc"

/-- Model of SecurityManager.encrypt_file.  now1 and now2 are the two
datetime.now() observations (the explicit is_authenticated check and the one
inside encrypt_data); the error component also returns the file system,
which a failing run leaves unchanged (the sibling write is the last step). -/
def SecurityManager.encrypt_file (self : SecurityManager) (fs : FileSystem)
    (now1 now2 nonce : Nat) (file_path : String) :
    Except SecurityError String × FileSystem × SecurityManager :=
  let p := self.is_authenticated now1
  if !p.1 then (.error .notAuthenticated, fs, p.2)
  else
    match fs file_path with
    | none => (.error .ioFailure, fs, p.2)  -- open() raises FileNotFoundError
    | some contents =>
      match p.2.encrypt_data now2 nonce contents with
      | (.ok token, s2) =>
        (.ok (encPath file_path),
         fs.write (encPath file_path) (tokenBytes token), s2)
      | (.error e, s2) => (.error e, fs, s2)

/-! ### DatabaseManager field adapter and backup (src/core/database.py) -/

/-- The slice of DatabaseManager the verified operations touch: its
SecurityManager (self.security). -/
structure DatabaseManager where
  security : SecurityManager

/-- Model of DatabaseManager.encrypt_field.  data is the Python value
(JValue.null models None, JValue.str a str, anything else a JSON-serializable
object); now1 is the adapter's own is_authenticated observation and now2 the
one inside encrypt_data; nonce is Fernet's IV.  The Option result returns
none for Python None. -/
def DatabaseManager.encrypt_field (self : DatabaseManager)
    (now1 now2 nonce : Nat) (data : JValue) : Option String × DatabaseManager :=
  match data with
  | .null => (none, self)  -- `if data is None: return None`
  | _ =>
    let p := self.security.is_authenticated now1
    if !p.1 then
      -- for non-sensitive data, return as JSON string
      (some (match data with | .str s => s | v => jsonDumps v), ⟨p.2⟩)
    else
      let json_str := match data with | .str s => s | v => jsonDumps v
      match p.2.encrypt_data now2 nonce (strBytes json_str) with
      | (.ok token, s2) => (some (bytesToHex (tokenBytes token)), ⟨s2⟩)
      | (.error _, s2) => (some json_str, ⟨s2⟩)  -- fallback to unencrypted storage

/-- Model of DatabaseManager.decrypt_field.  now1 is the adapter's
is_authenticated observation, now2 the one inside decrypt_data.  Total:
every Python exception path lands in a fallback branch, never propagates. -/
def DatabaseManager.decrypt_field (self : DatabaseManager) (now1 now2 : Nat)
    (encrypted_hex : String) : JValue × DatabaseManager :=
  if encrypted_hex = "" then (JValue.null, self)  -- `if not encrypted_hex: return None`
  else
    let p := self.security.is_authenticated now1
    -- fallback: try to parse as regular JSON, else return the raw string
    let fallback : JValue :=
      match jsonLoads encrypted_hex with
      | some v => v
      | none => JValue.str encrypted_hex
    if p.1 then
      match bytesFromHex encrypted_hex with
      | none => (fallback, ⟨p.2⟩)  -- ValueError from bytes.fromhex, caught
      | some encrypted_bytes =>
        match tokenFromBytes encrypted_bytes with
        | none => (fallback, ⟨p.2⟩)  -- InvalidToken on a malformed token, caught
        | some token =>
          match p.2.decrypt_data now2 token with
          | (.ok decrypted, s2) =>
            match bytesToStr decrypted with
            | none => (fallback, ⟨s2⟩)  -- UnicodeDecodeError, caught by the outer except
            | some txt =>
              match jsonLoads txt with
              | some v => (v, ⟨s2⟩)
              | none => (JValue.str txt, ⟨s2⟩)  -- except JSONDecodeError: return decrypted.decode()
          | (.error _, s2) => (fallback, ⟨s2⟩)
    else (fallback, ⟨p.2⟩)

/-- Model of the encrypt-and-replace step of DatabaseManager.backup_database
(lines 437-448).  The sqlite connection plumbing is abstracted into copying
the database bytes to backup_path; the timestamped destination is a
parameter.  now1..now3 are the three datetime.now() observations (the
backup's own is_authenticated check and the two inside encrypt_file); the
Option result is the reported path, none modelling the outer except that
reports a failed backup. -/
def backup_database (security : SecurityManager) (fs : FileSystem)
    (db_path backup_path : String) (now1 now2 now3 nonce : Nat) :
    Option String × FileSystem × SecurityManager :=
  match fs db_path with
  | none => (none, fs, security)  -- sqlite cannot open the source database
  | some db_bytes =>
    let fs1 := fs.write backup_path db_bytes
    let p := security.is_authenticated now1
    if p.1 then
      match p.2.encrypt_file fs1 now2 now3 nonce backup_path with
      | (.ok encrypted_backup, fs2, s2) =>
        -- remove the unencrypted backup only after the encrypted copy is written
        (some encrypted_backup, fs2.unlink backup_path, s2)
      | (.error _, fs2, s2) => (some backup_path, fs2, s2)  -- return unencrypted backup
    else (some backup_path, fs1, p.2)

/-! ### Reachable SecurityManager states -/

/-- A SecurityManager as constructed by __init__: no key, no cipher, no
expiry; the .auth file may or may not already exist on disk. -/
def freshManager (cfg : AppConfig) (disk : Option AuthData) : SecurityManager :=
  { config := cfg, master_key := none, cipher := none,
    session_expiry := none, auth_file := disk }

/-- One call of the public SecurityManager interface, as a step between
states; every argument (inputs, clock readings, randomness) is arbitrary. -/
inductive SecStep : SecurityManager → SecurityManager → Prop where
  | initialize_master_password (s : SecurityManager) (password : String)
      (salt : Bytes) (gensalt now : Nat) :
      SecStep s (s.initialize_master_password password salt gensalt now).2
  | authenticate (s : SecurityManager) (password : String) (now : Nat) :
      SecStep s (s.authenticate password now).2
  | is_authenticated (s : SecurityManager) (now : Nat) :
      SecStep s (s.is_authenticated now).2
  | extend_session (s : SecurityManager) (now : Nat) :
      SecStep s (s.extend_session now)
  | logout (s : SecurityManager) : SecStep s s.logout
  | encrypt_data (s : SecurityManager) (now nonce : Nat) (data : Bytes) :
      SecStep s (s.encrypt_data now nonce data).2
  | decrypt_data (s : SecurityManager) (now : Nat) (t : FernetToken) :
      SecStep s (s.decrypt_data now t).2

/-- States reachable from construction by any call sequence. -/
def Reachable (s : SecurityManager) : Prop :=
  ∃ cfg disk, Relation.ReflTransGen SecStep (freshManager cfg disk) s

/-- The session invariant of the spec: derived key, cipher and expiry are
set together and cleared together. -/
def SessionConsistent (s : SecurityManager) : Prop :=
  (s.master_key = none ∧ s.cipher = none ∧ s.session_expiry = none)
  ∨ (s.master_key.isSome = true ∧ s.cipher.isSome = true
      ∧ s.session_expiry.isSome = true)

/-- Single-bit modifications of a ciphertext token: flip one bit of the
nonce, of one payload byte, or of the authentication tag. -/
inductive TamperedToken (t : FernetToken) : FernetToken → Prop where
  | nonce (i : Nat) : TamperedToken t ⟨flipBit t.nonce i, t.body, t.tag⟩
  | body (j i : Nat) (h : j < t.body.length) :
      TamperedToken t ⟨t.nonce, t.body.set j (flipBit (t.body.get ⟨j, h⟩) i), t.tag⟩
  | tag (i : Nat) : TamperedToken t ⟨t.nonce, t.body, flipBit t.tag i⟩

/-! ### Concrete fixtures used by witnesses and counterexamples -/

/-- The configuration defaults. -/
def cfg0 : AppConfig := {}

/-- A freshly constructed manager: no session, no credential file. -/
def sm0 : SecurityManager := freshManager cfg0 none

/-- A fixed session key for concrete states. -/
def key0 : Bytes := [7]

/-- A manager holding an active session that expires at time 100. -/
def smA : SecurityManager :=
  { config := cfg0, master_key := some key0, cipher := some key0,
    session_expiry := some 100, auth_file := none }

/-- Stored credentials for the password "pw123!xy" with bcrypt salt 5 and
key-derivation salt [9]. -/
def ad0 : AuthData := ⟨hashpw (strBytes "pw123!xy") 5, [9]⟩

/-- A freshly constructed manager that sees an existing credential file. -/
def smB : SecurityManager := freshManager cfg0 (some ad0)

/-- Database adapter over the fresh manager. -/
def db0 : DatabaseManager := ⟨sm0⟩

/-- Database adapter over the manager with the active session. -/
def dbA : DatabaseManager := ⟨smA⟩

/-- A one-file file system holding the database file. -/
def fsDb : FileSystem :=
  fun q => if q = "portfolio.db" then some [1, 2] else none

/-- A one-file file system holding a plaintext file f. -/
def fsF : FileSystem := fun q => if q = "f" then some [3] else none

/-! ## General lemmas about the embedded operations -/

theorem listEncode_injective : Function.Injective listEncode := by
  intro as bs h
  induction as generalizing bs with
  | nil =>
    cases bs with
    | nil => rfl
    | cons b bs => simp [listEncode] at h
  | cons a as ih =>
    cases bs with
    | nil => simp [listEncode] at h
    | cons b bs =>
      simp only [listEncode, Nat.succ_inj] at h
      obtain ⟨h1, h2⟩ := Nat.pair_eq_pair.mp h
      rw [h1, ih h2]

theorem flipBit_ne (x i : Nat) : flipBit x i ≠ x := by
  intro h
  unfold flipBit at h
  have h2 : (x ^^^ (2 ^ i)) ^^^ x = x ^^^ x := by rw [h]
  rw [Nat.xor_comm x (2 ^ i), Nat.xor_assoc, Nat.xor_self, Nat.xor_zero] at h2
  exact pow_ne_zero i (by decide) h2

theorem bytesToStr_strBytes (s : String) : bytesToStr (strBytes s) = some s := by
  unfold bytesToStr strBytes
  rw [if_pos]
  · congr 1
    apply String.ext
    simp only [List.map_map]
    conv_rhs => rw [show s.data = s.data.map id from (List.map_id s.data).symm]
    apply List.map_congr_left
    intro c _
    simp only [Function.comp_apply, id_eq]
    exact Char.ofNat_toNat c
  · rw [List.all_eq_true]
    intro x hx
    simp only [List.mem_map] at hx
    obtain ⟨c, _, rfl⟩ := hx
    have hv := c.valid
    unfold validCodePoint
    rcases hv with h | ⟨h1, h2⟩
    · simp only [Bool.or_eq_true, decide_eq_true_eq]
      exact Or.inl h
    · simp only [Bool.or_eq_true, Bool.and_eq_true, decide_eq_true_eq]
      exact Or.inr ⟨h1, h2⟩

example : jsonLoads "null" = some JValue.null := by rfl
example : jsonLoads " \x7b\"a\": 1\x7d " = some (JValue.obj [("a", JValue.num 1)]) := by rfl
example : jsonLoads "[1, -2, \"x\"]"
    = some (JValue.arr [JValue.num 1, JValue.num (-2), JValue.str "x"]) := by rfl
example : jsonLoads "" = none := by rfl
example : jsonLoads "hello" = none := by rfl
example : jsonLoads "01" = none := by rfl
example : jsonDumps (JValue.obj [("a", JValue.num 1)]) = "\x7b\"a\": 1\x7d" := by rfl

theorem checkpw_hashpw (password : Bytes) (gensalt : Nat) :
    checkpw password (hashpw password gensalt) = true := by
  simp [checkpw, hashpw]

theorem encPath_ne (p : String) : encPath p ≠ p := by
  intro h
  have hl := congrArg String.length h
  simp [encPath, String.length_append] at hl
  exact absurd hl (by decide)

theorem logout_consistent (s : SecurityManager) : SessionConsistent s.logout :=
  Or.inl ⟨rfl, rfl, rfl⟩

theorem is_authenticated_true_iff (s : SecurityManager) (now : Nat) :
    (s.is_authenticated now).1 = true
      ↔ ∃ k exp, s.cipher = some k ∧ s.session_expiry = some exp ∧ now ≤ exp := by
  rcases hc : s.cipher with _ | k <;> rcases he : s.session_expiry with _ | e <;>
    simp [SecurityManager.is_authenticated, hc, he]
  by_cases hlt : e < now <;> (simp [hlt]; try omega)

theorem is_authenticated_true_state (s : SecurityManager) (now : Nat)
    (h : (s.is_authenticated now).1 = true) : (s.is_authenticated now).2 = s := by
  unfold SecurityManager.is_authenticated at h ⊢
  rcases hc : s.cipher with _ | k <;> rcases he : s.session_expiry with _ | e <;>
    simp [hc, he] at h ⊢
  by_cases hlt : e < now
  · simp [hlt] at h
  · simp [hlt]

theorem is_authenticated_consistent (s : SecurityManager) (now : Nat)
    (h : SessionConsistent s) : SessionConsistent (s.is_authenticated now).2 := by
  rcases hc : s.cipher with _ | k <;> rcases he : s.session_expiry with _ | e <;>
    simp [SecurityManager.is_authenticated, hc, he]
  · exact h
  · exact h
  · exact h
  · split
    · exact logout_consistent s
    · exact h

theorem encrypt_data_state (s : SecurityManager) (now nonce : Nat) (d : Bytes) :
    (s.encrypt_data now nonce d).2 = (s.is_authenticated now).2 := by
  simp only [SecurityManager.encrypt_data]
  by_cases h : (s.is_authenticated now).1 <;> simp [h]
  cases hc : (s.is_authenticated now).2.cipher <;> simp [hc]

theorem decrypt_data_state (s : SecurityManager) (now : Nat) (t : FernetToken) :
    (s.decrypt_data now t).2 = (s.is_authenticated now).2 := by
  simp only [SecurityManager.decrypt_data]
  by_cases h : (s.is_authenticated now).1 <;> simp [h]
  cases hc : (s.is_authenticated now).2.cipher <;> simp [hc]
  cases hd : fernetDecrypt _ t <;> simp

theorem secStep_preserves {s s' : SecurityManager} (hstep : SecStep s s')
    (h : SessionConsistent s) : SessionConsistent s' := by
  cases hstep with
  | initialize_master_password password salt gensalt now =>
    by_cases hv : s.validate_password_strength password <;>
      simp [SecurityManager.initialize_master_password, hv]
    · exact Or.inr ⟨rfl, rfl, rfl⟩
    · exact h
  | authenticate password now =>
    rcases ha : s.auth_file with _ | ad <;>
      simp [SecurityManager.authenticate, ha]
    · exact h
    · by_cases hc : checkpw (strBytes password) ad.password_hash <;> simp [hc]
      · exact Or.inr ⟨rfl, rfl, rfl⟩
      · exact h
  | is_authenticated now => exact is_authenticated_consistent s now h
  | extend_session now =>
    unfold SecurityManager.extend_session
    by_cases hp : (s.is_authenticated now).1 <;> simp [hp]
    · have hs := is_authenticated_true_state s now hp
      obtain ⟨k, exp, hck, _, _⟩ := (is_authenticated_true_iff s now).mp hp
      rw [hs]
      rcases h with ⟨_, hcn, _⟩ | ⟨hmk, _, _⟩
      · rw [hcn] at hck; cases hck
      · exact Or.inr ⟨hmk, by simp [hck], rfl⟩
    · exact is_authenticated_consistent s now h
  | logout => exact logout_consistent s
  | encrypt_data now nonce data =>
    rw [encrypt_data_state]
    exact is_authenticated_consistent s now h
  | decrypt_data now t =>
    rw [decrypt_data_state]
    exact is_authenticated_consistent s now h


theorem fernetDecrypt_fernetEncrypt (key : Bytes) (nonce : Nat) (m : Bytes) :
    fernetDecrypt key (fernetEncrypt key nonce m) = some m := by
  simp [fernetDecrypt, fernetEncrypt]

theorem fernetMac_inj (key : Bytes) (n1 n2 : Nat) (b1 b2 : Bytes)
    (h : fernetMac key n1 b1 = fernetMac key n2 b2) : n1 = n2 ∧ b1 = b2 := by
  unfold fernetMac at h
  have h1 := (Nat.pair_eq_pair.mp h).2
  have h2 := Nat.pair_eq_pair.mp h1
  exact ⟨h2.1, listEncode_injective h2.2⟩

theorem list_set_ne {α : Type _} (l : List α) (j : Nat) (x : α)
    (h : j < l.length) (hx : x ≠ l.get ⟨j, h⟩) : l.set j x ≠ l := by
  intro heq
  apply hx
  have h2 : (l.set j x)[j]? = l[j]? := by rw [heq]
  rw [List.getElem?_set_self, List.getElem?_eq_getElem h] at h2
  · simp only [Option.some_inj] at h2
    rw [h2, List.get_eq_getElem]
  · simpa using h

/-- Any single-bit modification of a genuine token is rejected by the
idealized authenticated decryption. -/
theorem fernetDecrypt_tampered (key : Bytes) (nonce : Nat) (m : Bytes)
    (t' : FernetToken) (h : TamperedToken (fernetEncrypt key nonce m) t') :
    fernetDecrypt key t' = none := by
  cases h with
  | nonce i =>
    unfold fernetDecrypt
    rw [if_neg]
    intro heq
    simp only [fernetEncrypt] at heq
    have h1 := (fernetMac_inj key nonce (flipBit nonce i) m m heq).1
    exact flipBit_ne nonce i h1.symm
  | body j i hj =>
    unfold fernetDecrypt
    rw [if_neg]
    intro heq
    simp only [fernetEncrypt] at heq hj ⊢
    have h2 := (fernetMac_inj key nonce nonce m
      (m.set j (flipBit (m.get ⟨j, hj⟩) i)) heq).2
    exact list_set_ne m j _ hj (flipBit_ne _ i) h2.symm
  | tag i =>
    unfold fernetDecrypt
    rw [if_neg]
    intro heq
    simp only [fernetEncrypt] at heq
    exact flipBit_ne (fernetMac key nonce m) i heq

theorem is_authenticated_false_of_none (s : SecurityManager) (now : Nat)
    (hc : s.cipher = none) : (s.is_authenticated now).1 = false := by
  simp [SecurityManager.is_authenticated, hc]

theorem is_authenticated_some (s : SecurityManager) (now : Nat) (k : Bytes)
    (exp : Nat) (hc : s.cipher = some k) (he : s.session_expiry = some exp)
    (hle : now ≤ exp) : s.is_authenticated now = (true, s) := by
  simp only [SecurityManager.is_authenticated, hc, he]
  rw [if_neg]
  omega

theorem is_authenticated_expired (s : SecurityManager) (now : Nat) (k : Bytes)
    (exp : Nat) (hc : s.cipher = some k) (he : s.session_expiry = some exp)
    (hlt : exp < now) : s.is_authenticated now = (false, s.logout) := by
  simp only [SecurityManager.is_authenticated, hc, he]
  rw [if_pos]
  omega

theorem encrypt_data_not_authenticated (s : SecurityManager) (now nonce : Nat)
    (d : Bytes) (h : (s.is_authenticated now).1 = false) :
    (s.encrypt_data now nonce d).1 = Except.error SecurityError.notAuthenticated := by
  simp [SecurityManager.encrypt_data, h]

theorem decrypt_data_not_authenticated (s : SecurityManager) (now : Nat)
    (t : FernetToken) (h : (s.is_authenticated now).1 = false) :
    (s.decrypt_data now t).1 = Except.error SecurityError.notAuthenticated := by
  simp [SecurityManager.decrypt_data, h]

theorem encrypt_data_ok (s : SecurityManager) (now nonce : Nat) (d : Bytes)
    (k : Bytes) (exp : Nat) (hc : s.cipher = some k)
    (he : s.session_expiry = some exp) (hle : now ≤ exp) :
    s.encrypt_data now nonce d = (Except.ok (fernetEncrypt k nonce d), s) := by
  simp [SecurityManager.encrypt_data, is_authenticated_some s now k exp hc he hle, hc]

theorem decrypt_data_authenticated (s : SecurityManager) (now : Nat)
    (t : FernetToken) (k : Bytes) (exp : Nat) (hc : s.cipher = some k)
    (he : s.session_expiry = some exp) (hle : now ≤ exp) :
    s.decrypt_data now t
      = (match fernetDecrypt k t with
          | some m => Except.ok m
          | none => Except.error SecurityError.decryptionFailed, s) := by
  simp only [SecurityManager.decrypt_data,
    is_authenticated_some s now k exp hc he hle, hc]
  cases fernetDecrypt k t <;> simp

/-! ## Claim theorems -/

/-- C3: encrypt_data and decrypt_data fail with NotAuthenticated whenever no
active (unexpired) session exists; under an active session decrypt_data
fails with DecryptionFailed whenever the token's authentication tag does not
verify against the session key; and decrypting any single-bit tampering of a
token produced by encrypt fails with DecryptionFailed rather than returning
corrupted plaintext. -/
theorem crypto_auth_gate_and_tamper_detection :
    (∀ (s : SecurityManager) (now nonce : Nat) (d : Bytes) (t : FernetToken),
      (s.is_authenticated now).1 = false →
      (s.encrypt_data now nonce d).1 = Except.error SecurityError.notAuthenticated
        ∧ (s.decrypt_data now t).1 = Except.error SecurityError.notAuthenticated)
    ∧ (∀ (s : SecurityManager) (now : Nat) (k : Bytes) (exp : Nat)
        (t : FernetToken),
      s.cipher = some k → s.session_expiry = some exp → now ≤ exp →
      t.tag ≠ fernetMac k t.nonce t.body →
      (s.decrypt_data now t).1 = Except.error SecurityError.decryptionFailed)
    ∧ (∀ (s : SecurityManager) (now : Nat) (k : Bytes) (exp nonce : Nat)
        (m : Bytes) (t' : FernetToken),
      s.cipher = some k → s.session_expiry = some exp → now ≤ exp →
      TamperedToken (fernetEncrypt k nonce m) t' →
      (s.decrypt_data now t').1 = Except.error SecurityError.decryptionFailed) := by
  refine ⟨?_, ?_, ?_⟩
  · intro s now nonce d t h
    exact ⟨encrypt_data_not_authenticated s now nonce d h,
      decrypt_data_not_authenticated s now t h⟩
  · intro s now k exp t hc he hle htag
    have hd := congrArg Prod.fst (decrypt_data_authenticated s now t k exp hc he hle)
    rw [hd]
    simp [fernetDecrypt, htag]
  · intro s now k exp nonce m t' hc he hle ht
    have hd := congrArg Prod.fst (decrypt_data_authenticated s now t' k exp hc he hle)
    rw [hd]
    rw [show fernetDecrypt k t' = none from fernetDecrypt_tampered k nonce m t' ht]

/-- Closed instantiation of C3 at concrete states: the fresh manager rejects
both operations at time 0; the live session rejects a token with a forged
tag and a bit-flipped genuine token. -/
theorem crypto_auth_gate_and_tamper_detection_witness :
    (smA.decrypt_data 50 ⟨0, [1], 0⟩).1 = Except.error SecurityError.decryptionFailed
    ∧ (sm0.encrypt_data 0 0 [1]).1 = Except.error SecurityError.notAuthenticated
    ∧ (sm0.decrypt_data 0 ⟨0, [1], 0⟩).1 = Except.error SecurityError.notAuthenticated
    ∧ (smA.decrypt_data 60 ⟨0, [1], flipBit (fernetMac key0 0 [1]) 0⟩).1
        = Except.error SecurityError.decryptionFailed := by
  refine ⟨?_, ?_, ?_, ?_⟩
  · exact crypto_auth_gate_and_tamper_detection.2.1 smA 50 key0 100 ⟨0, [1], 0⟩
      rfl rfl (by decide) (by decide)
  · exact (crypto_auth_gate_and_tamper_detection.1 sm0 0 0 [1] ⟨0, [1], 0⟩ rfl).1
  · exact (crypto_auth_gate_and_tamper_detection.1 sm0 0 0 [1] ⟨0, [1], 0⟩ rfl).2
  · exact crypto_auth_gate_and_tamper_detection.2.2 smA 60 key0 100 0 [1]
      ⟨0, [1], flipBit (fernetMac key0 0 [1]) 0⟩ rfl rfl (by decide)
      (TamperedToken.tag 0)

/-- C4 (counterexample): with session_expiry = some 100, is_authenticated at
time 100 still returns true although 100 < 100 fails, so "true iff the
current time is strictly before expiresAt" is false on the code: the source
tests now > expiry, keeping the boundary instant authenticated. -/
theorem is_authenticated_boundary_counterexample :
    (smA.is_authenticated 100).1 = true ∧ ¬ (100 < 100) :=
  ⟨rfl, by decide⟩

/-- C4 (amended): is_authenticated returns true iff a session exists and now
has not passed expiresAt (valid iff now ≤ expiresAt; the boundary instant
counts as valid, unlike the claimed strict bound); on the first observation
strictly after expiry it clears the whole session state (key, cipher and
expiry all become absent) and returns false, and a subsequent encrypt call
on the cleared state fails with NotAuthenticated. -/
theorem is_authenticated_expiry_amended :
    (∀ (s : SecurityManager) (now : Nat),
      (s.is_authenticated now).1 = true
        ↔ ∃ k exp, s.cipher = some k ∧ s.session_expiry = some exp ∧ now ≤ exp)
    ∧ (∀ (s : SecurityManager) (now : Nat) (k : Bytes) (exp : Nat),
      s.cipher = some k → s.session_expiry = some exp → exp < now →
      (s.is_authenticated now).1 = false
      ∧ (s.is_authenticated now).2.master_key = none
      ∧ (s.is_authenticated now).2.cipher = none
      ∧ (s.is_authenticated now).2.session_expiry = none
      ∧ ∀ (now2 nonce : Nat) (d : Bytes),
          ((s.is_authenticated now).2.encrypt_data now2 nonce d).1
            = Except.error SecurityError.notAuthenticated) := by
  refine ⟨is_authenticated_true_iff, ?_⟩
  intro s now k exp hc he hlt
  have h := is_authenticated_expired s now k exp hc he hlt
  rw [h]
  refine ⟨rfl, rfl, rfl, rfl, ?_⟩
  intro now2 nonce d
  exact encrypt_data_not_authenticated _ now2 nonce d
    (is_authenticated_false_of_none _ now2 rfl)

/-- Closed instantiation of C4 at the concrete session expiring at 100:
valid at 50, expired at 101 with the state cleared and encryption refused. -/
theorem is_authenticated_expiry_amended_witness :
    (smA.is_authenticated 50).1 = true
    ∧ (smA.is_authenticated 101).1 = false
    ∧ (smA.is_authenticated 101).2.cipher = none
    ∧ ((smA.is_authenticated 101).2.encrypt_data 102 0 [1]).1
        = Except.error SecurityError.notAuthenticated := by
  have h2 := is_authenticated_expiry_amended.2 smA 101 key0 100 rfl rfl (by decide)
  exact ⟨(is_authenticated_expiry_amended.1 smA 50).mpr ⟨key0, 100, rfl, rfl, by decide⟩,
    h2.1, h2.2.2.1, h2.2.2.2.2 102 0 [1]⟩

/-- C5: in every SecurityManager state reachable from construction by any
sequence of the public operations, the derived key (with its cipher) and the
session expiry are either all present or all absent. -/
theorem session_fields_consistent_reachable (s : SecurityManager)
    (h : Reachable s) : SessionConsistent s := by
  obtain ⟨cfg, disk, hrt⟩ := h
  induction hrt with
  | refl => exact Or.inl ⟨rfl, rfl, rfl⟩
  | tail hab hbc ih => exact secStep_preserves hbc ih

/-- Closed instantiation of C5: the state reached by one successful
initialize_master_password call from a fresh manager satisfies the
invariant. -/
theorem session_fields_consistent_reachable_witness :
    SessionConsistent ((sm0.initialize_master_password "Tr0ub4dor&3" [1] 0 0).2) :=
  session_fields_consistent_reachable _
    ⟨cfg0, none, Relation.ReflTransGen.single
      (SecStep.initialize_master_password sm0 "Tr0ub4dor&3" [1] 0 0)⟩

/-- C8: while the same session remains active (both clock observations at or
before the expiry), decrypt of encrypt returns the original byte sequence. -/
theorem encrypt_decrypt_roundtrip (s : SecurityManager) (k : Bytes)
    (exp now1 now2 nonce : Nat) (B : Bytes)
    (hc : s.cipher = some k) (he : s.session_expiry = some exp)
    (h1 : now1 ≤ exp) (h2 : now2 ≤ exp) :
    (s.encrypt_data now1 nonce B).1 = Except.ok (fernetEncrypt k nonce B)
    ∧ ((s.encrypt_data now1 nonce B).2.decrypt_data now2
        (fernetEncrypt k nonce B)).1 = Except.ok B := by
  have he1 := encrypt_data_ok s now1 nonce B k exp hc he h1
  constructor
  · rw [he1]
  · rw [he1]
    show (s.decrypt_data now2 (fernetEncrypt k nonce B)).1 = Except.ok B
    have hd := congrArg Prod.fst (decrypt_data_authenticated s now2
      (fernetEncrypt k nonce B) k exp hc he h2)
    rw [hd, fernetDecrypt_fernetEncrypt]

/-- Closed instantiation of C8 at the live session: bytes [1, 2, 3] survive
an encrypt at time 10 and a decrypt at time 20. -/
theorem encrypt_decrypt_roundtrip_witness :
    (smA.encrypt_data 10 4 [1, 2, 3]).1 = Except.ok (fernetEncrypt key0 4 [1, 2, 3])
    ∧ ((smA.encrypt_data 10 4 [1, 2, 3]).2.decrypt_data 20
        (fernetEncrypt key0 4 [1, 2, 3])).1 = Except.ok [1, 2, 3] :=
  encrypt_decrypt_roundtrip smA key0 100 10 20 4 [1, 2, 3] rfl rfl
    (by decide) (by decide)

/-- C9: the derived session key is a function of the password, the stored
salt and the configured iteration count alone: two authenticate calls
against the same credential file, at arbitrary different times and from
arbitrary manager states, produce the identical key bytes; no per-session
random component enters key derivation (authenticate consumes none). -/
theorem derive_key_deterministic_across_sessions
    (s1 s2 : SecurityManager) (password : String) (now1 now2 : Nat)
    (ad : AuthData) (h1 : s1.auth_file = some ad) (h2 : s2.auth_file = some ad)
    (hit : s1.config.ENCRYPTION_KEY_ITERATIONS = s2.config.ENCRYPTION_KEY_ITERATIONS)
    (hpw : checkpw (strBytes password) ad.password_hash = true) :
    (s1.authenticate password now1).1 = true
    ∧ (s1.authenticate password now1).2.master_key
        = some (urlsafe_b64encode (pbkdf2Sha256 (strBytes password) ad.salt
            s1.config.ENCRYPTION_KEY_ITERATIONS))
    ∧ (s1.authenticate password now1).2.master_key
        = (s2.authenticate password now2).2.master_key := by
  have e0 : (s1.authenticate password now1).1 = true := by
    simp [SecurityManager.authenticate, h1, hpw]
  have e1 : (s1.authenticate password now1).2.master_key
      = some (s1.derive_key password ad.salt) := by
    simp [SecurityManager.authenticate, h1, hpw]
  have e2 : (s2.authenticate password now2).2.master_key
      = some (s2.derive_key password ad.salt) := by
    simp [SecurityManager.authenticate, h2, hpw]
  refine ⟨e0, ?_, ?_⟩
  · rw [e1]; rfl
  · rw [e1, e2]
    unfold SecurityManager.derive_key
    rw [hit]

/-- Closed instantiation of C9: authenticating twice against the same stored
credentials at times 3 and 9 yields the same master key. -/
theorem derive_key_deterministic_across_sessions_witness :
    (smB.authenticate "pw123!xy" 3).1 = true
    ∧ (smB.authenticate "pw123!xy" 3).2.master_key
        = (smB.authenticate "pw123!xy" 9).2.master_key := by
  have h := derive_key_deterministic_across_sessions smB smB "pw123!xy" 3 9 ad0
    rfl rfl rfl (checkpw_hashpw (strBytes "pw123!xy") 5)
  exact ⟨h.1, h.2.2⟩

/-- C7: initialize_master_password fails exactly when the password violates
the policy (shorter than the configured minimum length, or lacking at least
one digit, one letter or one non-alphanumeric character); "short" is
rejected, while "Tr0ub4dor&3" is accepted, after which is_first_run is
false. -/
theorem initialize_password_policy :
    (∀ (s : SecurityManager) (password : String) (salt : Bytes) (gensalt now : Nat),
      (s.initialize_master_password password salt gensalt now).1 = false
        ↔ s.validate_password_strength password = false)
    ∧ (∀ (s : SecurityManager) (password : String),
      s.validate_password_strength password = true
        ↔ (s.config.PASSWORD_MIN_LENGTH ≤ password.length
            ∧ (∃ c ∈ password.data, c.isDigit = true)
            ∧ (∃ c ∈ password.data, c.isAlpha = true)
            ∧ (∃ c ∈ password.data, (c.isAlpha || c.isDigit) = false)))
    ∧ (sm0.initialize_master_password "short" [1] 0 0).1 = false
    ∧ (sm0.initialize_master_password "Tr0ub4dor&3" [1] 0 0).1 = true
    ∧ (sm0.initialize_master_password "Tr0ub4dor&3" [1] 0 0).2.is_first_run
        = false := by
  refine ⟨?_, ?_, by rfl, by rfl, by rfl⟩
  · intro s password salt gensalt now
    by_cases hv : s.validate_password_strength password <;>
      simp [SecurityManager.initialize_master_password, hv]
  · intro s password
    unfold SecurityManager.validate_password_strength
    by_cases hl : password.length < s.config.PASSWORD_MIN_LENGTH
    · rw [if_pos hl]
      simp only [Bool.false_eq_true, false_iff]
      intro hcon
      exact absurd hcon.1 (by omega)
    · rw [if_neg hl]
      have hle : s.config.PASSWORD_MIN_LENGTH ≤ password.length := Nat.not_lt.mp hl
      simp [List.any_eq_true, Bool.and_eq_true, hle]
      tauto

theorem encrypt_data_expired_pair (s : SecurityManager) (now nonce : Nat)
    (d : Bytes) (k : Bytes) (exp : Nat) (hc : s.cipher = some k)
    (he : s.session_expiry = some exp) (hlt : exp < now) :
    s.encrypt_data now nonce d
      = (Except.error SecurityError.notAuthenticated, s.logout) := by
  simp [SecurityManager.encrypt_data, is_authenticated_expired s now k exp hc he hlt]

/-- C2 (counterexample): with no active session, encodeField of the plain
string "hi" returns the string itself, although its JSON serialization is
the quoted text; string-typed values are passed through verbatim rather
than serialized, so "serializes v to JSON and returns that text verbatim"
fails on string inputs. -/
theorem encrypt_field_string_passthrough_counterexample :
    (db0.encrypt_field 0 0 0 (JValue.str "hi")).1 = some "hi"
    ∧ jsonDumps (JValue.str "hi") = "\"hi\""
    ∧ ("hi" : String) ≠ "\"hi\"" :=
  ⟨rfl, rfl, by decide⟩

/-- C2 (amended): encodeField(None) returns None; with no active session a
string value is returned verbatim and any other value is serialized to JSON
and returned; with an active session the same text (the string itself for
strings, the JSON serialization otherwise) is encrypted and the ciphertext
returned hex-encoded.  The claimed scenario holds: encodeField of the
object with member a = 1 under no session returns the literal JSON text.
The amendment: string inputs (and None) skip JSON serialization on every
path. -/
theorem encrypt_field_encoding_amended :
    (∀ (db : DatabaseManager) (now1 now2 nonce : Nat),
      (db.encrypt_field now1 now2 nonce JValue.null).1 = none)
    ∧ (∀ (db : DatabaseManager) (now1 now2 nonce : Nat) (t : String),
      (db.security.is_authenticated now1).1 = false →
      (db.encrypt_field now1 now2 nonce (JValue.str t)).1 = some t)
    ∧ (∀ (db : DatabaseManager) (now1 now2 nonce : Nat) (v : JValue),
      (db.security.is_authenticated now1).1 = false →
      v ≠ JValue.null → (∀ t, v ≠ JValue.str t) →
      (db.encrypt_field now1 now2 nonce v).1 = some (jsonDumps v))
    ∧ (∀ (db : DatabaseManager) (k : Bytes) (exp now1 now2 nonce : Nat)
        (t : String),
      db.security.cipher = some k → db.security.session_expiry = some exp →
      now1 ≤ exp → now2 ≤ exp →
      (db.encrypt_field now1 now2 nonce (JValue.str t)).1
        = some (bytesToHex (tokenBytes (fernetEncrypt k nonce (strBytes t)))))
    ∧ (∀ (db : DatabaseManager) (k : Bytes) (exp now1 now2 nonce : Nat)
        (v : JValue),
      db.security.cipher = some k → db.security.session_expiry = some exp →
      now1 ≤ exp → now2 ≤ exp →
      v ≠ JValue.null → (∀ t, v ≠ JValue.str t) →
      (db.encrypt_field now1 now2 nonce v).1
        = some (bytesToHex (tokenBytes (fernetEncrypt k nonce
            (strBytes (jsonDumps v))))))
    ∧ (db0.encrypt_field 0 0 0 (JValue.obj [("a", JValue.num 1)])).1
        = some "\x7b\"a\": 1\x7d" := by
  refine ⟨fun db now1 now2 nonce => rfl, ?_, ?_, ?_, ?_, by rfl⟩
  · intro db now1 now2 nonce t h
    simp [DatabaseManager.encrypt_field, h]
  · intro db now1 now2 nonce v h hnull hstr
    cases v with
    | null => exact absurd rfl hnull
    | bool b => simp [DatabaseManager.encrypt_field, h]
    | num n => simp [DatabaseManager.encrypt_field, h]
    | str t => exact absurd rfl (hstr t)
    | arr es => simp [DatabaseManager.encrypt_field, h]
    | obj ms => simp [DatabaseManager.encrypt_field, h]
  · intro db k exp now1 now2 nonce t hc he hn1 hn2
    have ha := is_authenticated_some db.security now1 k exp hc he hn1
    have hok := encrypt_data_ok db.security now2 nonce (strBytes t) k exp hc he hn2
    simp [DatabaseManager.encrypt_field, ha, hok]
  · intro db k exp now1 now2 nonce v hc he hn1 hn2 hnull hstr
    have ha := is_authenticated_some db.security now1 k exp hc he hn1
    have hok := fun d => encrypt_data_ok db.security now2 nonce d k exp hc he hn2
    cases v with
    | null => exact absurd rfl hnull
    | bool b => simp [DatabaseManager.encrypt_field, ha, hok]
    | num n => simp [DatabaseManager.encrypt_field, ha, hok]
    | str t => exact absurd rfl (hstr t)
    | arr es => simp [DatabaseManager.encrypt_field, ha, hok]
    | obj ms => simp [DatabaseManager.encrypt_field, ha, hok]

/-- Closed instantiation of C2 at both session states: pass-through of a
string and JSON serialization of a boolean without a session, and the
hex-of-ciphertext forms under the live session. -/
theorem encrypt_field_encoding_amended_witness :
    (db0.encrypt_field 0 0 0 (JValue.str "x")).1 = some "x"
    ∧ (db0.encrypt_field 0 0 0 (JValue.bool true)).1 = some "true"
    ∧ (dbA.encrypt_field 10 20 5 (JValue.str "x")).1
        = some (bytesToHex (tokenBytes (fernetEncrypt key0 5 (strBytes "x"))))
    ∧ (dbA.encrypt_field 10 20 5 (JValue.bool true)).1
        = some (bytesToHex (tokenBytes (fernetEncrypt key0 5
            (strBytes (jsonDumps (JValue.bool true)))))) := by
  refine ⟨?_, ?_, ?_, ?_⟩
  · exact encrypt_field_encoding_amended.2.1 db0 0 0 0 "x" rfl
  · exact encrypt_field_encoding_amended.2.2.1 db0 0 0 0 (JValue.bool true) rfl
      (fun h => JValue.noConfusion h) (fun t h => JValue.noConfusion h)
  · exact encrypt_field_encoding_amended.2.2.2.1 dbA key0 100 10 20 5 "x"
      rfl rfl (by decide) (by decide)
  · exact encrypt_field_encoding_amended.2.2.2.2.1 dbA key0 100 10 20 5
      (JValue.bool true) rfl rfl (by decide) (by decide)
      (fun h => JValue.noConfusion h) (fun t h => JValue.noConfusion h)

/-- C10: when the adapter's own authentication check passes but the session
expires before the encryption call observes the clock again, encrypt_data
raises SecurityError; encrypt_field catches it and returns the plaintext
encoding of the value (the string itself for strings, its JSON
serialization otherwise), so no error reaches the caller and the value is
handed to storage unencrypted. -/
theorem encrypt_field_swallows_encryption_error
    (db : DatabaseManager) (k : Bytes) (exp now1 now2 nonce : Nat) (v : JValue)
    (hc : db.security.cipher = some k) (he : db.security.session_expiry = some exp)
    (h1 : now1 ≤ exp) (h2 : exp < now2) (hv : v ≠ JValue.null) :
    (db.encrypt_field now1 now2 nonce v).1
      = some (match v with | JValue.str t => t | w => jsonDumps w) := by
  have ha := is_authenticated_some db.security now1 k exp hc he h1
  have hp := fun d => encrypt_data_expired_pair db.security now2 nonce d k exp hc he h2
  cases v with
  | null => exact absurd rfl hv
  | bool b => simp [DatabaseManager.encrypt_field, ha, hp]
  | num n => simp [DatabaseManager.encrypt_field, ha, hp]
  | str t => simp [DatabaseManager.encrypt_field, ha, hp]
  | arr es => simp [DatabaseManager.encrypt_field, ha, hp]
  | obj ms => simp [DatabaseManager.encrypt_field, ha, hp]

/-- Closed instantiation of C10: the session expires at 100; the adapter
check passes at 50, the encryption call observes 200, and the object is
returned as plaintext JSON with no error. -/
theorem encrypt_field_swallows_encryption_error_witness :
    (dbA.encrypt_field 50 200 0 (JValue.obj [("a", JValue.num 1)])).1
      = some "\x7b\"a\": 1\x7d" := by
  rw [encrypt_field_swallows_encryption_error dbA key0 100 50 200 0
    (JValue.obj [("a", JValue.num 1)]) rfl rfl (by decide) (by decide)
    (fun h => JValue.noConfusion h)]
  rfl

/-- C1 (counterexample): decodeField of the empty string returns None
(JValue.null), whereas the claimed chain — plain-JSON parse of "" fails, so
return the raw string unchanged — would produce the empty string itself:
the source short-circuits falsy inputs to None before any fallback. -/
theorem decrypt_field_empty_input_counterexample :
    (db0.decrypt_field 0 0 "").1 = JValue.null
    ∧ jsonLoads "" = none
    ∧ JValue.null ≠ JValue.str "" :=
  ⟨rfl, rfl, fun h => JValue.noConfusion h⟩

/-- C1 (amended): decodeField is total — every failure lands in a fallback
branch, never propagates.  Empty input returns None without entering the
chain.  With no active session a non-empty input is parsed as plain JSON,
falling back to the raw string.  With an active session, a failure at
hex-decode, token parsing, decryption, or byte-to-text decoding falls back
to the plain-JSON parse of the input and then to the raw string; but when
decryption and text decoding succeed and only the JSON parse of the
decrypted text fails, the decrypted text itself is returned — the input is
not re-parsed as plain JSON at that step, contrary to the claimed chain. -/
theorem decrypt_field_fallback_chain_amended :
    (∀ (db : DatabaseManager) (now1 now2 : Nat),
      (db.decrypt_field now1 now2 "").1 = JValue.null)
    ∧ (∀ (db : DatabaseManager) (now1 now2 : Nat) (s : String),
      s ≠ "" → (db.security.is_authenticated now1).1 = false →
      (db.decrypt_field now1 now2 s).1 = (jsonLoads s).getD (JValue.str s))
    ∧ (∀ (db : DatabaseManager) (now1 now2 : Nat) (s : String),
      s ≠ "" → (db.security.is_authenticated now1).1 = true →
      bytesFromHex s = none →
      (db.decrypt_field now1 now2 s).1 = (jsonLoads s).getD (JValue.str s))
    ∧ (∀ (db : DatabaseManager) (now1 now2 : Nat) (s : String) (bs : Bytes),
      s ≠ "" → (db.security.is_authenticated now1).1 = true →
      bytesFromHex s = some bs → tokenFromBytes bs = none →
      (db.decrypt_field now1 now2 s).1 = (jsonLoads s).getD (JValue.str s))
    ∧ (∀ (db : DatabaseManager) (now1 now2 : Nat) (s : String) (bs : Bytes)
        (t : FernetToken) (e : SecurityError),
      s ≠ "" → (db.security.is_authenticated now1).1 = true →
      bytesFromHex s = some bs → tokenFromBytes bs = some t →
      ((db.security.is_authenticated now1).2.decrypt_data now2 t).1
        = Except.error e →
      (db.decrypt_field now1 now2 s).1 = (jsonLoads s).getD (JValue.str s))
    ∧ (∀ (db : DatabaseManager) (now1 now2 : Nat) (s : String) (bs : Bytes)
        (t : FernetToken) (m : Bytes),
      s ≠ "" → (db.security.is_authenticated now1).1 = true →
      bytesFromHex s = some bs → tokenFromBytes bs = some t →
      ((db.security.is_authenticated now1).2.decrypt_data now2 t).1
        = Except.ok m →
      bytesToStr m = none →
      (db.decrypt_field now1 now2 s).1 = (jsonLoads s).getD (JValue.str s))
    ∧ (∀ (db : DatabaseManager) (now1 now2 : Nat) (s : String) (bs : Bytes)
        (t : FernetToken) (m : Bytes) (txt : String),
      s ≠ "" → (db.security.is_authenticated now1).1 = true →
      bytesFromHex s = some bs → tokenFromBytes bs = some t →
      ((db.security.is_authenticated now1).2.decrypt_data now2 t).1
        = Except.ok m →
      bytesToStr m = some txt →
      (db.decrypt_field now1 now2 s).1 = (jsonLoads txt).getD (JValue.str txt)) := by
  refine ⟨fun db now1 now2 => rfl, ?_, ?_, ?_, ?_, ?_, ?_⟩
  · intro db now1 now2 s hs hauth
    rcases hX : db.security.is_authenticated now1 with ⟨b, s2⟩
    rw [hX] at hauth
    simp only at hauth
    subst hauth
    simp only [DatabaseManager.decrypt_field, if_neg hs, hX, Bool.false_eq_true,
      if_false]
    cases jsonLoads s <;> simp
  · intro db now1 now2 s hs hauth hhex
    rcases hX : db.security.is_authenticated now1 with ⟨b, s2⟩
    rw [hX] at hauth
    simp only at hauth
    subst hauth
    simp only [DatabaseManager.decrypt_field, if_neg hs, hX, if_true, hhex]
    cases jsonLoads s <;> simp
  · intro db now1 now2 s bs hs hauth hhex htok
    rcases hX : db.security.is_authenticated now1 with ⟨b, s2⟩
    rw [hX] at hauth
    simp only at hauth
    subst hauth
    simp only [DatabaseManager.decrypt_field, if_neg hs, hX, if_true, hhex, htok]
    cases jsonLoads s <;> simp
  · intro db now1 now2 s bs t e hs hauth hhex htok hdec
    rcases hX : db.security.is_authenticated now1 with ⟨b, s2⟩
    rw [hX] at hauth hdec
    simp only at hauth
    subst hauth
    simp only at hdec
    rcases hD : s2.decrypt_data now2 t with ⟨r, s3⟩
    rw [hD] at hdec
    simp only at hdec
    subst hdec
    simp only [DatabaseManager.decrypt_field, if_neg hs, hX, if_true, hhex, htok,
      hD]
    cases jsonLoads s <;> simp
  · intro db now1 now2 s bs t m hs hauth hhex htok hdec hstr
    rcases hX : db.security.is_authenticated now1 with ⟨b, s2⟩
    rw [hX] at hauth hdec
    simp only at hauth
    subst hauth
    simp only at hdec
    rcases hD : s2.decrypt_data now2 t with ⟨r, s3⟩
    rw [hD] at hdec
    simp only at hdec
    subst hdec
    simp only [DatabaseManager.decrypt_field, if_neg hs, hX, if_true, hhex, htok,
      hD, hstr]
    cases jsonLoads s <;> simp
  · intro db now1 now2 s bs t m txt hs hauth hhex htok hdec hstr
    rcases hX : db.security.is_authenticated now1 with ⟨b, s2⟩
    rw [hX] at hauth hdec
    simp only at hauth
    subst hauth
    simp only at hdec
    rcases hD : s2.decrypt_data now2 t with ⟨r, s3⟩
    rw [hD] at hdec
    simp only at hdec
    subst hdec
    simp only [DatabaseManager.decrypt_field, if_neg hs, hX, if_true, hhex, htok,
      hD, hstr]
    cases jsonLoads txt <;> simp

/-- Closed instantiation of C1: without a session, non-JSON input comes back
as the raw string and numeric text parses; with the live session, non-hex
input falls back to the raw string. -/
theorem decrypt_field_fallback_chain_amended_witness :
    (db0.decrypt_field 0 0 "hello").1 = JValue.str "hello"
    ∧ (db0.decrypt_field 0 0 "3").1 = JValue.num 3
    ∧ (dbA.decrypt_field 50 50 "zz").1 = JValue.str "zz" := by
  refine ⟨?_, ?_, ?_⟩
  · rw [decrypt_field_fallback_chain_amended.2.1 db0 0 0 "hello" (by decide) rfl]
    rfl
  · rw [decrypt_field_fallback_chain_amended.2.1 db0 0 0 "3" (by decide) rfl]
    rfl
  · rw [decrypt_field_fallback_chain_amended.2.2.1 dbA 50 50 "zz" (by decide)
      rfl rfl]
    rfl

theorem encrypt_file_not_auth_eq (s : SecurityManager) (fs : FileSystem)
    (now1 now2 nonce : Nat) (path : String)
    (h : (s.is_authenticated now1).1 = false) :
    s.encrypt_file fs now1 now2 nonce path
      = (Except.error SecurityError.notAuthenticated, fs,
         (s.is_authenticated now1).2) := by
  simp [SecurityManager.encrypt_file, h]

theorem encrypt_file_missing_eq (s : SecurityManager) (fs : FileSystem)
    (now1 now2 nonce : Nat) (path : String) (k : Bytes) (exp : Nat)
    (hc : s.cipher = some k) (he : s.session_expiry = some exp)
    (h1 : now1 ≤ exp) (hr : fs path = none) :
    s.encrypt_file fs now1 now2 nonce path
      = (Except.error SecurityError.ioFailure, fs, s) := by
  simp [SecurityManager.encrypt_file,
    is_authenticated_some s now1 k exp hc he h1, hr]

theorem encrypt_file_ok_eq (s : SecurityManager) (fs : FileSystem)
    (now1 now2 nonce : Nat) (path : String) (k : Bytes) (exp : Nat)
    (contents : Bytes) (hc : s.cipher = some k)
    (he : s.session_expiry = some exp) (h1 : now1 ≤ exp) (h2 : now2 ≤ exp)
    (hr : fs path = some contents) :
    s.encrypt_file fs now1 now2 nonce path
      = (Except.ok (encPath path),
         fs.write (encPath path) (tokenBytes (fernetEncrypt k nonce contents)),
         s) := by
  simp [SecurityManager.encrypt_file,
    is_authenticated_some s now1 k exp hc he h1, hr,
    encrypt_data_ok s now2 nonce contents k exp hc he h2]

theorem encrypt_file_expired_eq (s : SecurityManager) (fs : FileSystem)
    (now1 now2 nonce : Nat) (path : String) (k : Bytes) (exp : Nat)
    (contents : Bytes) (hc : s.cipher = some k)
    (he : s.session_expiry = some exp) (h1 : now1 ≤ exp) (h2 : exp < now2)
    (hr : fs path = some contents) :
    s.encrypt_file fs now1 now2 nonce path
      = (Except.error SecurityError.notAuthenticated, fs, s.logout) := by
  simp [SecurityManager.encrypt_file,
    is_authenticated_some s now1 k exp hc he h1, hr,
    encrypt_data_expired_pair s now2 nonce contents k exp hc he h2]

/-- C6: encrypt_file writes the ciphertext to the sibling path with the
added .enc marker, leaves the original file untouched (indeed touches no
other path), and on any failure leaves the entire file system unchanged;
in backup_database the unencrypted backup copy is deleted only in the
branch where the complete encrypted copy has already been written to disk,
and whenever backup_database reports the unencrypted path (the file
encryption failed or no session was active) that copy still holds the
database contents. -/
theorem encrypt_file_backup_preserves_original :
    (∀ (s : SecurityManager) (fs : FileSystem) (now1 now2 nonce : Nat)
        (path r : String),
      (s.encrypt_file fs now1 now2 nonce path).1 = Except.ok r →
      r = encPath path
      ∧ (s.encrypt_file fs now1 now2 nonce path).2.1 path = fs path
      ∧ (∀ q, q ≠ encPath path →
          (s.encrypt_file fs now1 now2 nonce path).2.1 q = fs q)
      ∧ ∃ contents k, fs path = some contents ∧ s.cipher = some k
          ∧ (s.encrypt_file fs now1 now2 nonce path).2.1 (encPath path)
              = some (tokenBytes (fernetEncrypt k nonce contents)))
    ∧ (∀ (s : SecurityManager) (fs : FileSystem) (now1 now2 nonce : Nat)
        (path : String) (e : SecurityError),
      (s.encrypt_file fs now1 now2 nonce path).1 = Except.error e →
      ∀ q, (s.encrypt_file fs now1 now2 nonce path).2.1 q = fs q)
    ∧ (∀ (security : SecurityManager) (fs : FileSystem)
        (db_path backup_path : String) (now1 now2 now3 nonce : Nat)
        (db_bytes : Bytes),
      fs db_path = some db_bytes →
      ((backup_database security fs db_path backup_path now1 now2 now3 nonce).2.1
            backup_path = none →
        (backup_database security fs db_path backup_path now1 now2 now3 nonce).1
            = some (encPath backup_path)
        ∧ ∃ k, security.cipher = some k
            ∧ (backup_database security fs db_path backup_path
                  now1 now2 now3 nonce).2.1 (encPath backup_path)
                = some (tokenBytes (fernetEncrypt k nonce db_bytes)))
      ∧ ((backup_database security fs db_path backup_path now1 now2 now3 nonce).1
            = some backup_path →
        (backup_database security fs db_path backup_path now1 now2 now3
            nonce).2.1 backup_path = some db_bytes)) := by
  have hwrite_self : ∀ (fs : FileSystem) (p : String) (c : Bytes),
      fs.write p c p = some c := by
    intro fs p c
    simp [FileSystem.write]
  have hwrite_other : ∀ (fs : FileSystem) (p q : String) (c : Bytes), q ≠ p →
      fs.write p c q = fs q := by
    intro fs p q c hq
    simp [FileSystem.write, hq]
  refine ⟨?_, ?_, ?_⟩
  · intro s fs now1 now2 nonce path r hok
    by_cases hp : (s.is_authenticated now1).1
    · obtain ⟨k, exp, hck, hse, h1⟩ := (is_authenticated_true_iff s now1).mp hp
      cases hread : fs path with
      | none =>
        rw [encrypt_file_missing_eq s fs now1 now2 nonce path k exp hck hse h1
          hread] at hok
        exact absurd hok (by simp)
      | some contents =>
        by_cases h2 : now2 ≤ exp
        · have heq := encrypt_file_ok_eq s fs now1 now2 nonce path k exp contents
            hck hse h1 h2 hread
          rw [heq] at hok ⊢
          simp only [Except.ok.injEq] at hok
          refine ⟨hok.symm,
            (hwrite_other fs (encPath path) path _
              (fun h => encPath_ne path h.symm)).trans hread,
            fun q hq => hwrite_other fs (encPath path) q _ hq,
            contents, k, rfl, hck, hwrite_self fs (encPath path) _⟩
        · rw [encrypt_file_expired_eq s fs now1 now2 nonce path k exp contents
            hck hse h1 (by omega) hread] at hok
          exact absurd hok (by simp)
    · rw [encrypt_file_not_auth_eq s fs now1 now2 nonce path
        (eq_false_of_ne_true hp)] at hok
      exact absurd hok (by simp)
  · intro s fs now1 now2 nonce path e herr q
    by_cases hp : (s.is_authenticated now1).1
    · obtain ⟨k, exp, hck, hse, h1⟩ := (is_authenticated_true_iff s now1).mp hp
      cases hread : fs path with
      | none =>
        rw [encrypt_file_missing_eq s fs now1 now2 nonce path k exp hck hse h1
          hread]
      | some contents =>
        by_cases h2 : now2 ≤ exp
        · rw [encrypt_file_ok_eq s fs now1 now2 nonce path k exp contents
            hck hse h1 h2 hread] at herr
          exact absurd herr (by simp)
        · rw [encrypt_file_expired_eq s fs now1 now2 nonce path k exp contents
            hck hse h1 (by omega) hread]
    · rw [encrypt_file_not_auth_eq s fs now1 now2 nonce path
        (eq_false_of_ne_true hp)]
  · intro security fs db_path backup_path now1 now2 now3 nonce db_bytes hdb
    have hfs1 : (fs.write backup_path db_bytes) backup_path = some db_bytes :=
      hwrite_self fs backup_path db_bytes
    by_cases hp : (security.is_authenticated now1).1
    · obtain ⟨k, exp, hck, hse, h1⟩ :=
        (is_authenticated_true_iff security now1).mp hp
      have hax := is_authenticated_some security now1 k exp hck hse h1
      by_cases h2 : now2 ≤ exp
      · by_cases h3 : now3 ≤ exp
        · have heq := encrypt_file_ok_eq security (fs.write backup_path db_bytes)
            now2 now3 nonce backup_path k exp db_bytes hck hse h2 h3 hfs1
          have hbeq : backup_database security fs db_path backup_path
              now1 now2 now3 nonce
            = (some (encPath backup_path),
               (((fs.write backup_path db_bytes).write (encPath backup_path)
                  (tokenBytes (fernetEncrypt k nonce db_bytes))).unlink
                  backup_path),
               security) := by
            simp [backup_database, hdb, hax, heq]
          rw [hbeq]
          constructor
          · intro _
            refine ⟨rfl, k, hck, ?_⟩
            have hul : (((fs.write backup_path db_bytes).write
                  (encPath backup_path)
                  (tokenBytes (fernetEncrypt k nonce db_bytes))).unlink
                  backup_path) (encPath backup_path)
                = ((fs.write backup_path db_bytes).write (encPath backup_path)
                  (tokenBytes (fernetEncrypt k nonce db_bytes)))
                  (encPath backup_path) := by
              simp [FileSystem.unlink, encPath_ne backup_path]
            show (((fs.write backup_path db_bytes).write (encPath backup_path)
                (tokenBytes (fernetEncrypt k nonce db_bytes))).unlink
                backup_path) (encPath backup_path)
              = some (tokenBytes (fernetEncrypt k nonce db_bytes))
            rw [hul]
            exact hwrite_self _ (encPath backup_path) _
          · intro hcon
            simp only [Option.some_inj] at hcon
            exact absurd hcon (encPath_ne backup_path)
        · have heq := encrypt_file_expired_eq security
            (fs.write backup_path db_bytes) now2 now3 nonce backup_path k exp
            db_bytes hck hse h2 (by omega) hfs1
          have hbeq : backup_database security fs db_path backup_path
              now1 now2 now3 nonce
            = (some backup_path, fs.write backup_path db_bytes,
               security.logout) := by
            simp [backup_database, hdb, hax, heq]
          rw [hbeq]
          refine ⟨fun hcon => ?_, fun _ => hfs1⟩
          have hno : (fs.write backup_path db_bytes) backup_path = none := hcon
          rw [hfs1] at hno
          cases hno
      · have heq := encrypt_file_not_auth_eq security
          (fs.write backup_path db_bytes) now2 now3 nonce backup_path
          (by rw [is_authenticated_expired security now2 k exp hck hse (by omega)])
        have hbeq : backup_database security fs db_path backup_path
            now1 now2 now3 nonce
          = (some backup_path, fs.write backup_path db_bytes,
             ((security.is_authenticated now2).2)) := by
          simp [backup_database, hdb, hax, heq]
        rw [hbeq]
        refine ⟨fun hcon => ?_, fun _ => hfs1⟩
        have hno : (fs.write backup_path db_bytes) backup_path = none := hcon
        rw [hfs1] at hno
        cases hno
    · rcases hX : security.is_authenticated now1 with ⟨b, s2⟩
      rw [hX] at hp
      simp only at hp
      have hb : b = false := by
        revert hp
        cases b <;> simp
      subst hb
      have hbeq : backup_database security fs db_path backup_path
          now1 now2 now3 nonce
        = (some backup_path, fs.write backup_path db_bytes, s2) := by
        simp [backup_database, hdb, hX]
      rw [hbeq]
      refine ⟨fun hcon => ?_, fun _ => hfs1⟩
      have hno : (fs.write backup_path db_bytes) backup_path = none := hcon
      rw [hfs1] at hno
      cases hno

/-- Closed instantiation of C6: under the live session, encrypting the file
f leaves f intact and creates f.enc holding the full ciphertext; without a
session, backup_database reports the unencrypted copy, which still holds
the database bytes. -/
theorem encrypt_file_backup_preserves_original_witness :
    (smA.encrypt_file fsF 10 20 5 "f").2.1 "f" = some [3]
    ∧ (smA.encrypt_file fsF 10 20 5 "f").2.1 "f.enc"
        = some (tokenBytes (fernetEncrypt key0 5 [3]))
    ∧ (backup_database sm0 fsDb "portfolio.db" "backup.db" 0 0 0 0).2.1
        "backup.db" = some [1, 2] := by
  have ha := encrypt_file_backup_preserves_original.1 smA fsF 10 20 5 "f"
    (encPath "f") rfl
  have hc := (encrypt_file_backup_preserves_original.2.2 sm0 fsDb
    "portfolio.db" "backup.db" 0 0 0 0 [1, 2] rfl).2 rfl
  refine ⟨ha.2.1.trans (by rfl), ?_, hc⟩
  obtain ⟨contents, k, hread, hck, henc⟩ := ha.2.2.2
  have hcontents : contents = [3] :=
    Option.some_inj.mp ((show some [3] = fsF "f" from rfl).trans hread).symm
  have hk : k = key0 :=
    (Option.some_inj.mp (show some key0 = some k from hck)).symm
  rw [hcontents, hk] at henc
  exact henc
